import Mathlib

/-!
Verification of the probability-estimator core of the Theorazine repository
(src/js/calculator.js). The JavaScript functions are embedded shallowly:
numeric inputs become rationals, results of the exponential formula live in
the reals, fallible validation becomes an Except value, and the module-level
memoization Map becomes explicit state passing over an insertion-ordered
entry list.
-/

/-- Embedding of the LEAK_RATES table of calculator.js: profession category
to annual leak probability. Unknown categories yield none (the JS object has
no such property). -/
def LEAK_RATES (professionType : String) : Option ℚ :=
  if professionType = "scientists" then some (4/10000)
  else if professionType = "intelligence" then some (3/10000)
  else if professionType = "government" then some (5/10000)
  else if professionType = "military" then some (4/10000)
  else if professionType = "corporate" then some (6/10000)
  else if professionType = "general" then some (1/1000)
  else none

/-- Error kinds thrown by validateInputs in calculator.js. -/
inductive ValidationError where
  | invalidConspirators
  | invalidYears
  | invalidProfession
deriving DecidableEq

/-- Embedding of validateInputs (calculator.js lines 24-34). The typeof
checks are absorbed by the rational input type; the range checks are
literal. -/
def validateInputs (conspirators years : ℚ) (professionType : String) :
    Except ValidationError Unit :=
  if conspirators < 1 ∨ 10000000 < conspirators then
    Except.error ValidationError.invalidConspirators
  else if years < 0 ∨ 1000 < years then
    Except.error ValidationError.invalidYears
  else if (LEAK_RATES professionType).isNone then
    Except.error ValidationError.invalidProfession
  else Except.ok ()

/-- Embedding of the body of the survival computation (calculator.js lines
79-86): the exponent -p*N*t is formed first, then clamped below -500 to 0,
clamped above 0 to 1, and exponentiated otherwise. -/
noncomputable def survivalCore (leakRate conspirators years : ℚ) : ℝ :=
  let exponent : ℚ := -leakRate * conspirators * years
  if exponent < -500 then 0
  else if 0 < exponent then 1
  else Real.exp ((exponent : ℚ) : ℝ)

/-- Embedding of calculateSurvivalProbability (calculator.js lines 72-92),
cache-free view: the try/catch around validation becomes a match, with the
catch branch returning 0. Cache transparency is proved separately against
the stateful embedding below. -/
noncomputable def calculateSurvivalProbability (conspirators years : ℚ)
    (professionType : String) : ℝ :=
  match validateInputs conspirators years professionType with
  | Except.error _ => 0
  | Except.ok _ =>
      survivalCore ((LEAK_RATES professionType).getD 0) conspirators years

/-- Embedding of calculateExposureProbability (calculator.js lines 102-110):
one minus survival, clamped into [0, 1]. The inner call never throws in the
embedding, so the catch branch returning 1 is unreachable. -/
noncomputable def calculateExposureProbability (conspirators years : ℚ)
    (professionType : String) : ℝ :=
  max 0 (min 1 (1 - calculateSurvivalProbability conspirators years professionType))

/-- Embedding of the body of the expected-time computation (calculator.js
lines 132-139). The JS Infinity sentinel is modelled as none; the finite
result 0.693 / (leakRate * conspirators) is exact rational arithmetic. -/
def expectedCore (leakRate conspirators : ℚ) : Option ℚ :=
  if conspirators ≤ 0 ∨ leakRate ≤ 0 then none
  else some (max 0 (693/1000 / (leakRate * conspirators)))

/-- Embedding of calculateExpectedTimeUntilExposure (calculator.js lines
125-145): validation with a zero years placeholder, then the core; the catch
branch returns the Infinity sentinel (none). -/
def calculateExpectedTimeUntilExposure (conspirators : ℚ)
    (professionType : String) : Option ℚ :=
  match validateInputs conspirators 0 professionType with
  | Except.error _ => none
  | Except.ok _ => expectedCore ((LEAK_RATES professionType).getD 0) conspirators

/-- Point of the charting series: (year, probability-as-percentage). -/
structure CurvePoint where
  year : ℕ
  probability : ℝ

/-- Step-size selection of generateProbabilityOverTime (calculator.js lines
165-168). -/
def stepFor (maxYears : ℕ) : ℕ :=
  if 200 < maxYears then 10
  else if 100 < maxYears then 5
  else if 50 < maxYears then 2
  else 1

/-- Per-year percentage of generateProbabilityOverTime (calculator.js lines
173-183): same exponent clamping as survivalCore, scaled to a percentage. -/
noncomputable def pctCore (leakRate conspirators : ℚ) (year : ℕ) : ℝ :=
  let exponent : ℚ := -leakRate * conspirators * (year : ℚ)
  if exponent < -500 then 0
  else if 0 < exponent then 100
  else Real.exp ((exponent : ℚ) : ℝ) * 100

/-- Loop of generateProbabilityOverTime (calculator.js lines 172-192),
expressed with a fuel parameter (the loop advances year by step ≥ 1 each
iteration, so fuel maxYears + 1 is enough starting from year 0). Each
iteration pushes the clamped percentage, then breaks if the unclamped
percentage fell below 0.01 after year 10. -/
noncomputable def seriesGo (leakRate conspirators : ℚ) (step maxYears : ℕ) :
    ℕ → ℕ → List CurvePoint
  | 0, _ => []
  | fuel + 1, year =>
    if year ≤ maxYears then
      let probability := pctCore leakRate conspirators year
      let pt : CurvePoint := ⟨year, max 0 (min 100 probability)⟩
      if probability < 1/100 ∧ 10 < year then [pt]
      else pt :: seriesGo leakRate conspirators step maxYears fuel (year + step)
    else []

/-- Embedding of generateProbabilityOverTime (calculator.js lines 155-200):
validation with a zero years placeholder, then the charting loop; the catch
branch returns the single fallback point. -/
noncomputable def generateProbabilityOverTime (conspirators : ℚ)
    (professionType : String) (maxYears : ℕ) : List CurvePoint :=
  match validateInputs conspirators 0 professionType with
  | Except.error _ => [⟨0, 100⟩]
  | Except.ok _ =>
      seriesGo ((LEAK_RATES professionType).getD 0) conspirators
        (stepFor maxYears) maxYears (maxYears + 1) 0

/-- JavaScript Math.round on a rational: floor of x + 1/2 (this is the JS
semantics of rounding half toward positive infinity). -/
def jsRound (x : ℚ) : ℤ := Int.floor (x + 1/2)

/-- Embedding of formatTimeDuration (calculator.js lines 236-256). The JS
Infinity argument is modelled as none. The toFixed(1) rendering in the
below-two-years branch is integer-and-tenths digits of the half-up rounded
multiple of ten. -/
def formatTimeDuration (years : Option ℚ) : String :=
  match years with
  | none => "Never (no conspirators)"
  | some y =>
    if y < 1 then
      let months := jsRound (y * 12)
      let days := jsRound (y * 365)
      if months < 1 then
        toString days ++ " day" ++ (if days ≠ 1 then "s" else "")
      else
        toString months ++ " month" ++ (if months ≠ 1 then "s" else "")
    else if y < 2 then
      let n := jsRound (y * 10)
      toString (n / 10) ++ "." ++ toString (n % 10) ++ " year"
    else
      toString (jsRound y) ++ " years"

/-- Clamped exponential applied by the survival computation to an already
formed exponent, isolated for reasoning about survivalCore. -/
noncomputable def clampExp (e : ℚ) : ℝ :=
  if e < -500 then 0 else if 0 < e then 1 else Real.exp ((e : ℚ) : ℝ)

lemma survivalCore_eq_clampExp (p N t : ℚ) :
    survivalCore p N t = clampExp (-p * N * t) := rfl

lemma clampExp_nonneg (e : ℚ) : 0 ≤ clampExp e := by
  unfold clampExp
  split_ifs with h1 h2
  · exact le_refl 0
  · norm_num
  · exact (Real.exp_pos _).le

lemma clampExp_le_one (e : ℚ) : clampExp e ≤ 1 := by
  unfold clampExp
  split_ifs with h1 h2
  · norm_num
  · exact le_refl 1
  · have h3 : ((e : ℚ) : ℝ) ≤ 0 := by exact_mod_cast not_lt.mp h2
    exact Real.exp_le_one_iff.mpr h3

lemma clampExp_mono {e1 e2 : ℚ} (h : e1 ≤ e2) : clampExp e1 ≤ clampExp e2 := by
  by_cases h1 : e1 < -500
  · have l1 : clampExp e1 = 0 := by unfold clampExp; rw [if_pos h1]
    rw [l1]; exact clampExp_nonneg e2
  · by_cases h2 : 0 < e2
    · have l2 : clampExp e2 = 1 := by
        unfold clampExp; rw [if_neg (by linarith), if_pos h2]
      rw [l2]; exact clampExp_le_one e1
    · have h3 : ¬ e2 < -500 := fun hx => h1 (lt_of_le_of_lt h hx)
      have h4 : ¬ 0 < e1 := fun hx => h2 (lt_of_lt_of_le hx h)
      have l1 : clampExp e1 = Real.exp ((e1 : ℚ) : ℝ) := by
        unfold clampExp; rw [if_neg h1, if_neg h4]
      have l2 : clampExp e2 = Real.exp ((e2 : ℚ) : ℝ) := by
        unfold clampExp; rw [if_neg h3, if_neg h2]
      rw [l1, l2]
      exact Real.exp_le_exp.mpr (by exact_mod_cast h)

lemma LEAK_RATES_pos {c : String} {p : ℚ} (h : LEAK_RATES c = some p) :
    0 < p := by
  unfold LEAK_RATES at h
  split_ifs at h <;> cases h <;> norm_num

lemma validateInputs_ok {N t : ℚ} {c : String} {p : ℚ}
    (hc : LEAK_RATES c = some p) (hN1 : 1 ≤ N) (hN2 : N ≤ 10000000)
    (ht1 : 0 ≤ t) (ht2 : t ≤ 1000) :
    validateInputs N t c = Except.ok () := by
  unfold validateInputs
  rw [if_neg (by push_neg; exact ⟨hN1, hN2⟩),
      if_neg (by push_neg; exact ⟨ht1, ht2⟩),
      if_neg (by rw [hc]; simp)]

lemma calculateSurvivalProbability_valid {N t : ℚ} {c : String} {p : ℚ}
    (hc : LEAK_RATES c = some p) (hN1 : 1 ≤ N) (hN2 : N ≤ 10000000)
    (ht1 : 0 ≤ t) (ht2 : t ≤ 1000) :
    calculateSurvivalProbability N t c = survivalCore p N t := by
  unfold calculateSurvivalProbability
  rw [validateInputs_ok hc hN1 hN2 ht1 ht2, hc]
  rfl

lemma calculateSurvivalProbability_nonneg (N t : ℚ) (c : String) :
    0 ≤ calculateSurvivalProbability N t c := by
  unfold calculateSurvivalProbability
  match validateInputs N t c with
  | Except.error e => exact le_refl 0
  | Except.ok u =>
      rw [survivalCore_eq_clampExp]
      exact clampExp_nonneg _

lemma calculateSurvivalProbability_le_one (N t : ℚ) (c : String) :
    calculateSurvivalProbability N t c ≤ 1 := by
  unfold calculateSurvivalProbability
  match validateInputs N t c with
  | Except.error e => norm_num
  | Except.ok u =>
      rw [survivalCore_eq_clampExp]
      exact clampExp_le_one _

/-- Claim C1: for every valid input (conspirators in [1, 10000000], years in
[0, 1000], category in the leak-rate table with rate p),
calculateSurvivalProbability computes the exponent -p*N*t first and returns
exactly 0 when that exponent is below -500, exactly 1 when the exponent is
at least 0 (in particular when t = 0), and exp(exponent) otherwise, and the
result always lies in [0, 1]. -/
theorem survival_clamping_policy_and_range (N t : ℚ) (c : String) (p : ℚ)
    (hc : LEAK_RATES c = some p) (hN1 : 1 ≤ N) (hN2 : N ≤ 10000000)
    (ht1 : 0 ≤ t) (ht2 : t ≤ 1000) :
    calculateSurvivalProbability N t c =
      (if -p * N * t < -500 then (0 : ℝ)
       else if 0 ≤ -p * N * t then 1
       else Real.exp ((-p * N * t : ℚ) : ℝ)) ∧
    0 ≤ calculateSurvivalProbability N t c ∧
    calculateSurvivalProbability N t c ≤ 1 ∧
    (t = 0 → calculateSurvivalProbability N t c = 1) := by
  have hval := calculateSurvivalProbability_valid hc hN1 hN2 ht1 ht2
  have hmain : calculateSurvivalProbability N t c =
      (if -p * N * t < -500 then (0 : ℝ)
       else if 0 ≤ -p * N * t then 1
       else Real.exp ((-p * N * t : ℚ) : ℝ)) := by
    rw [hval, survivalCore_eq_clampExp]
    unfold clampExp
    by_cases h1 : -p * N * t < -500
    · rw [if_pos h1, if_pos h1]
    · rw [if_neg h1, if_neg h1]
      by_cases h2 : 0 ≤ -p * N * t
      · rw [if_pos h2]
        rcases lt_or_eq_of_le h2 with hlt | heq
        · rw [if_pos hlt]
        · rw [if_neg (by rw [← heq]; exact lt_irrefl 0), ← heq]
          push_cast
          exact Real.exp_zero
      · rw [if_neg h2, if_neg (fun hx => h2 (le_of_lt hx))]
  refine ⟨hmain, calculateSurvivalProbability_nonneg N t c,
    calculateSurvivalProbability_le_one N t c, ?_⟩
  intro ht0
  subst ht0
  rw [hmain]
  norm_num

/-- Witness for claim C1 at the concrete scenario N = 1000, t = 5,
category general. -/
theorem survival_clamping_policy_and_range_witness :
    calculateSurvivalProbability 1000 5 "general" =
      (if -(1/1000) * 1000 * 5 < (-500 : ℚ) then (0 : ℝ)
       else if (0 : ℚ) ≤ -(1/1000) * 1000 * 5 then 1
       else Real.exp ((-(1/1000) * 1000 * 5 : ℚ) : ℝ)) ∧
    0 ≤ calculateSurvivalProbability 1000 5 "general" ∧
    calculateSurvivalProbability 1000 5 "general" ≤ 1 ∧
    ((5 : ℚ) = 0 → calculateSurvivalProbability 1000 5 "general" = 1) :=
  survival_clamping_policy_and_range 1000 5 "general" (1/1000)
    (by simp +decide [LEAK_RATES]) (by norm_num) (by norm_num) (by norm_num)
    (by norm_num)

lemma calculateSurvivalProbability_invalid {N t : ℚ} {c : String}
    {e : ValidationError} (h : validateInputs N t c = Except.error e) :
    calculateSurvivalProbability N t c = 0 := by
  unfold calculateSurvivalProbability
  rw [h]

/-- Claim C2 counterexample: at the invalid input conspirators = 0 the
validator does signal an error, yet calculateSurvivalProbability returns the
default value 0 to its caller instead of surfacing the error (the catch
branch of calculator.js lines 88-91 swallows it). -/
theorem survival_swallows_invalid_input :
    validateInputs 0 5 "general" = Except.error ValidationError.invalidConspirators ∧
    calculateSurvivalProbability 0 5 "general" = 0 := by
  have h : validateInputs 0 5 "general" =
      Except.error ValidationError.invalidConspirators := by
    unfold validateInputs
    norm_num
  exact ⟨h, calculateSurvivalProbability_invalid h⟩

/-- Claim C2 amended: for every invalid input the inner validateInputs does
signal an InvalidInput error, but calculateSurvivalProbability catches that
error and silently returns the default value 0 in its place, so the error is
not surfaced to the caller of calculateSurvivalProbability. -/
theorem validator_signals_but_survival_defaults :
    (∀ (N t : ℚ) (c : String),
        N < 1 ∨ 10000000 < N ∨ t < 0 ∨ 1000 < t ∨ LEAK_RATES c = none →
        ∃ e, validateInputs N t c = Except.error e) ∧
    (∀ (N t : ℚ) (c : String) (e : ValidationError),
        validateInputs N t c = Except.error e →
        calculateSurvivalProbability N t c = 0) := by
  constructor
  · intro N t c hbad
    unfold validateInputs
    split_ifs with h1 h2 h3
    · exact ⟨_, rfl⟩
    · exact ⟨_, rfl⟩
    · exact ⟨_, rfl⟩
    · exfalso
      push_neg at h1 h2
      rcases hbad with a | a | a | a | a
      · linarith [h1.1]
      · linarith [h1.2]
      · linarith [h2.1]
      · linarith [h2.2]
      · rw [a] at h3
        simp at h3
  · intro N t c e h
    exact calculateSurvivalProbability_invalid h

/-- Witness for the amended claim C2 at two concrete invalid inputs. -/
theorem validator_signals_but_survival_defaults_witness :
    (∃ e, validateInputs 20000000 5 "general" = Except.error e) ∧
    calculateSurvivalProbability (-3) 5 "general" = 0 :=
  ⟨validator_signals_but_survival_defaults.1 20000000 5 "general"
      (Or.inr (Or.inl (by norm_num))),
   validator_signals_but_survival_defaults.2 (-3) 5 "general"
      ValidationError.invalidConspirators (by unfold validateInputs; norm_num)⟩

/-- Claim C3 counterexample: for N = 1 and category intelligence the code
returns exactly 2310 years, which is 0.693 / (0.0003 * 1); the claimed value
ln(2) / (0.0003 * 1) is a different real number, so the function does not
return ln(2) / (p * N). -/
theorem expected_time_not_ln_two :
    calculateExpectedTimeUntilExposure 1 "intelligence" = some 2310 ∧
    Real.log 2 / ((3/10000 : ℝ) * 1) ≠ (2310 : ℝ) := by
  constructor
  · have hc : LEAK_RATES "intelligence" = some (3/10000) := by
      simp +decide [LEAK_RATES]
    unfold calculateExpectedTimeUntilExposure
    rw [validateInputs_ok hc (by norm_num) (by norm_num) (by norm_num)
        (by norm_num), hc]
    show expectedCore (3/10000) 1 = some 2310
    unfold expectedCore
    norm_num
  · intro h
    rw [div_eq_iff (by norm_num)] at h
    nlinarith [Real.log_two_gt_d9]

/-- Claim C3 amended: for every valid conspirator count N and category with
rate p, calculateExpectedTimeUntilExposure returns the hard-coded decimal
approximation 0.693 / (p * N) of ln(2) / (p * N), a strict underestimate of
it; for N = 1 and category intelligence this is exactly 2310 years,
approximately the ln(2)-based 2310.49 years. -/
theorem expected_time_formula (N : ℚ) (c : String) (p : ℚ)
    (hc : LEAK_RATES c = some p) (hN1 : 1 ≤ N) (hN2 : N ≤ 10000000) :
    calculateExpectedTimeUntilExposure N c = some (693/1000 / (p * N)) ∧
    ((693/1000 / (p * N) : ℚ) : ℝ) < Real.log 2 / ((p : ℝ) * (N : ℝ)) := by
  have hp := LEAK_RATES_pos hc
  have hN0 : (0 : ℚ) < N := lt_of_lt_of_le one_pos hN1
  constructor
  · unfold calculateExpectedTimeUntilExposure
    rw [validateInputs_ok hc hN1 hN2 (le_refl 0) (by norm_num), hc]
    show expectedCore p N = some (693/1000 / (p * N))
    unfold expectedCore
    rw [if_neg (by push_neg; exact ⟨hN0, hp⟩)]
    rw [max_eq_right (by positivity)]
  · have hpR : (0 : ℝ) < (p : ℝ) := by exact_mod_cast hp
    have hNR : (0 : ℝ) < (N : ℝ) := by exact_mod_cast hN0
    have hcast : ((693/1000 / (p * N) : ℚ) : ℝ) =
        (693/1000 : ℝ) / ((p : ℝ) * (N : ℝ)) := by
      push_cast
      ring
    rw [hcast]
    have hlog : (693/1000 : ℝ) < Real.log 2 := by
      linarith [Real.log_two_gt_d9]
    have hprod : (0 : ℝ) < (p : ℝ) * (N : ℝ) := mul_pos hpR hNR
    gcongr

/-- Witness for the amended claim C3 at N = 1, category intelligence. -/
theorem expected_time_formula_witness :
    calculateExpectedTimeUntilExposure 1 "intelligence" =
      some (693/1000 / ((3/10000 : ℚ) * 1)) ∧
    ((693/1000 / ((3/10000 : ℚ) * 1) : ℚ) : ℝ) <
      Real.log 2 / (((3/10000 : ℚ) : ℝ) * ((1 : ℚ) : ℝ)) :=
  expected_time_formula 1 "intelligence" (3/10000)
    (by simp +decide [LEAK_RATES]) (by norm_num) (by norm_num)

/-- Claim C4: for every valid input, calculateExposureProbability equals one
minus the survival probability (the clamp absorbs nothing because survival
lies in [0, 1]), so survival plus exposure is exactly 1, and exposure lies
in [0, 1]. -/
theorem exposure_complements_survival (N t : ℚ) (c : String) (p : ℚ)
    (_hc : LEAK_RATES c = some p) (_hN1 : 1 ≤ N) (_hN2 : N ≤ 10000000)
    (_ht1 : 0 ≤ t) (_ht2 : t ≤ 1000) :
    calculateExposureProbability N t c =
      1 - calculateSurvivalProbability N t c ∧
    calculateSurvivalProbability N t c +
      calculateExposureProbability N t c = 1 ∧
    0 ≤ calculateExposureProbability N t c ∧
    calculateExposureProbability N t c ≤ 1 := by
  have h0 := calculateSurvivalProbability_nonneg N t c
  have h1 := calculateSurvivalProbability_le_one N t c
  have hmain : calculateExposureProbability N t c =
      1 - calculateSurvivalProbability N t c := by
    unfold calculateExposureProbability
    rw [min_eq_right (by linarith), max_eq_right (by linarith)]
  exact ⟨hmain, by rw [hmain]; ring, by rw [hmain]; linarith,
    by rw [hmain]; linarith⟩

/-- Witness for claim C4 at N = 1000, t = 5, category general. -/
theorem exposure_complements_survival_witness :
    calculateExposureProbability 1000 5 "general" =
      1 - calculateSurvivalProbability 1000 5 "general" ∧
    calculateSurvivalProbability 1000 5 "general" +
      calculateExposureProbability 1000 5 "general" = 1 ∧
    0 ≤ calculateExposureProbability 1000 5 "general" ∧
    calculateExposureProbability 1000 5 "general" ≤ 1 :=
  exposure_complements_survival 1000 5 "general" (1/1000)
    (by simp +decide [LEAK_RATES]) (by norm_num) (by norm_num) (by norm_num)
    (by norm_num)

/-- Claim C5: for a fixed valid conspirator count and category the survival
probability is non-increasing in the valid years argument, and for fixed
valid years and category it is non-increasing in the valid conspirator
count. -/
theorem survival_monotone (c : String) (p : ℚ) (hc : LEAK_RATES c = some p) :
    (∀ N t1 t2 : ℚ, 1 ≤ N → N ≤ 10000000 → 0 ≤ t1 → t1 ≤ t2 → t2 ≤ 1000 →
        calculateSurvivalProbability N t2 c ≤
          calculateSurvivalProbability N t1 c) ∧
    (∀ t N1 N2 : ℚ, 0 ≤ t → t ≤ 1000 → 1 ≤ N1 → N1 ≤ N2 → N2 ≤ 10000000 →
        calculateSurvivalProbability N2 t c ≤
          calculateSurvivalProbability N1 t c) := by
  have hp := LEAK_RATES_pos hc
  constructor
  · intro N t1 t2 hN1 hN2 ht1 h12 ht2
    rw [calculateSurvivalProbability_valid hc hN1 hN2 (le_trans ht1 h12) ht2,
        calculateSurvivalProbability_valid hc hN1 hN2 ht1 (le_trans h12 ht2),
        survivalCore_eq_clampExp, survivalCore_eq_clampExp]
    apply clampExp_mono
    have key : 0 ≤ p * N * (t2 - t1) :=
      mul_nonneg (mul_nonneg hp.le (by linarith)) (by linarith)
    nlinarith [key]
  · intro t N1 N2 ht0 ht1 hN1 h12 hN2
    rw [calculateSurvivalProbability_valid hc (le_trans hN1 h12) hN2 ht0 ht1,
        calculateSurvivalProbability_valid hc hN1 (le_trans h12 hN2) ht0 ht1,
        survivalCore_eq_clampExp, survivalCore_eq_clampExp]
    apply clampExp_mono
    have key : 0 ≤ p * (N2 - N1) * t :=
      mul_nonneg (mul_nonneg hp.le (by linarith)) ht0
    nlinarith [key]

/-- Witness for claim C5 at category general: longer time and more
conspirators both weakly decrease survival. -/
theorem survival_monotone_witness :
    calculateSurvivalProbability 1000 2 "general" ≤
      calculateSurvivalProbability 1000 1 "general" ∧
    calculateSurvivalProbability 2000 1 "general" ≤
      calculateSurvivalProbability 1000 1 "general" :=
  ⟨(survival_monotone "general" (1/1000) (by simp +decide [LEAK_RATES])).1
      1000 1 2 (by norm_num) (by norm_num) (by norm_num) (by norm_num)
      (by norm_num),
   (survival_monotone "general" (1/1000) (by simp +decide [LEAK_RATES])).2
      1 1000 2000 (by norm_num) (by norm_num) (by norm_num) (by norm_num)
      (by norm_num)⟩

/-- Claim C9 counterexample: formatTimeDuration at 0.05 years (about 18.25
days) returns the month string "1 month", not a whole-day string, because
the code chooses days only when the rounded month count is below 1 and
round(0.05 * 12) = 1. -/
theorem format_time_small_duration_is_month :
    formatTimeDuration (some (1/20)) = "1 month" ∧
    formatTimeDuration (some (1/20)) ≠ "18 days" := by
  have hmain : formatTimeDuration (some (1/20)) = "1 month" := by
    have hm : jsRound ((1/20 : ℚ) * 12) = 1 := by unfold jsRound; norm_num
    simp only [formatTimeDuration]
    rw [if_pos (show (1/20 : ℚ) < 1 by norm_num), hm]
    norm_num
    decide
  refine ⟨hmain, ?_⟩
  rw [hmain]
  decide

/-- Claim C9 amended: formatTimeDuration maps the Infinity sentinel to
"Never (no conspirators)"; for nonnegative years below one it renders whole
days exactly when the rounded month count is zero, that is when years is
below 1/24 (so 0.05 years renders as "1 month", not as a day string), and
months otherwise; below two years it renders one decimal place followed by
"year"; otherwise the rounded integer years. -/
theorem format_time_duration_cases :
    formatTimeDuration none = "Never (no conspirators)" ∧
    (∀ y : ℚ, 0 ≤ y → y < 1/24 →
        formatTimeDuration (some y) =
          toString (jsRound (y * 365)) ++
            (if jsRound (y * 365) = 1 then " day" else " days")) ∧
    (∀ y : ℚ, 1/24 ≤ y → y < 1 →
        formatTimeDuration (some y) =
          toString (jsRound (y * 12)) ++
            (if jsRound (y * 12) = 1 then " month" else " months")) ∧
    (∀ y : ℚ, 1 ≤ y → y < 2 →
        formatTimeDuration (some y) =
          toString (jsRound (y * 10) / 10) ++ "." ++
            toString (jsRound (y * 10) % 10) ++ " year") ∧
    (∀ y : ℚ, 2 ≤ y →
        formatTimeDuration (some y) = toString (jsRound y) ++ " years") := by
  refine ⟨rfl, ?_, ?_, ?_, ?_⟩
  · intro y hy0 hy
    have h1 : y < 1 := by linarith
    have hm : jsRound (y * 12) < 1 := by
      unfold jsRound
      rw [Int.floor_lt]
      push_cast
      linarith
    simp only [formatTimeDuration]
    rw [if_pos h1, if_pos hm]
    by_cases hd : jsRound (y * 365) = 1
    · rw [hd]
      decide
    · rw [if_neg hd, if_pos hd, String.append_assoc,
        show (" day" ++ "s" : String) = " days" by decide]
  · intro y hy0 hy
    have hm : ¬ jsRound (y * 12) < 1 := by
      unfold jsRound
      rw [not_lt, Int.le_floor]
      push_cast
      linarith
    simp only [formatTimeDuration]
    rw [if_pos hy, if_neg hm]
    by_cases hd : jsRound (y * 12) = 1
    · rw [hd]
      decide
    · rw [if_neg hd, if_pos hd, String.append_assoc,
        show (" month" ++ "s" : String) = " months" by decide]
  · intro y hy1 hy2
    simp only [formatTimeDuration]
    rw [if_neg (not_lt.mpr hy1), if_pos hy2]
  · intro y hy
    simp only [formatTimeDuration]
    rw [if_neg (not_lt.mpr (by linarith : (1:ℚ) ≤ y)),
        if_neg (not_lt.mpr hy)]

/-- Witness for the amended claim C9 at four concrete durations. -/
theorem format_time_duration_cases_witness :
    formatTimeDuration (some (1/100)) =
      toString (jsRound ((1/100 : ℚ) * 365)) ++
        (if jsRound ((1/100 : ℚ) * 365) = 1 then " day" else " days") ∧
    formatTimeDuration (some (1/10)) =
      toString (jsRound ((1/10 : ℚ) * 12)) ++
        (if jsRound ((1/10 : ℚ) * 12) = 1 then " month" else " months") ∧
    formatTimeDuration (some (3/2)) =
      toString (jsRound ((3/2 : ℚ) * 10) / 10) ++ "." ++
        toString (jsRound ((3/2 : ℚ) * 10) % 10) ++ " year" ∧
    formatTimeDuration (some 5) = toString (jsRound 5) ++ " years" :=
  ⟨format_time_duration_cases.2.1 (1/100) (by norm_num) (by norm_num),
   format_time_duration_cases.2.2.1 (1/10) (by norm_num) (by norm_num),
   format_time_duration_cases.2.2.2.1 (3/2) (by norm_num) (by norm_num),
   format_time_duration_cases.2.2.2.2 5 (by norm_num)⟩

/-- Claim C10: no estimator operation propagates an error; on invalid input
calculateSurvivalProbability returns exactly 0, calculateExposureProbability
returns exactly 1, calculateExpectedTimeUntilExposure returns the Infinity
sentinel, and generateProbabilityOverTime returns the single fallback point
(year 0, 100 percent). Totality itself is by construction of the embedding:
every operation is a function into plain values. -/
theorem invalid_inputs_yield_defaults :
    (∀ (N t : ℚ) (c : String) (e : ValidationError),
        validateInputs N t c = Except.error e →
        calculateSurvivalProbability N t c = 0 ∧
        calculateExposureProbability N t c = 1) ∧
    (∀ (N : ℚ) (c : String) (maxYears : ℕ) (e : ValidationError),
        validateInputs N 0 c = Except.error e →
        calculateExpectedTimeUntilExposure N c = none ∧
        generateProbabilityOverTime N c maxYears = [⟨0, 100⟩]) := by
  constructor
  · intro N t c e h
    have hs := calculateSurvivalProbability_invalid h
    refine ⟨hs, ?_⟩
    unfold calculateExposureProbability
    rw [hs]
    norm_num
  · intro N c maxYears e h
    constructor
    · unfold calculateExpectedTimeUntilExposure
      rw [h]
    · unfold generateProbabilityOverTime
      rw [h]

/-- Witness for claim C10 at the invalid category "astrologers". -/
theorem invalid_inputs_yield_defaults_witness :
    (calculateSurvivalProbability 5 5 "astrologers" = 0 ∧
      calculateExposureProbability 5 5 "astrologers" = 1) ∧
    (calculateExpectedTimeUntilExposure 5 "astrologers" = none ∧
      generateProbabilityOverTime 5 "astrologers" 100 = [⟨0, 100⟩]) :=
  ⟨invalid_inputs_yield_defaults.1 5 5 "astrologers"
      ValidationError.invalidProfession
      (by unfold validateInputs
          rw [show LEAK_RATES "astrologers" = none by simp +decide [LEAK_RATES]]
          norm_num),
   invalid_inputs_yield_defaults.2 5 "astrologers" 100
      ValidationError.invalidProfession
      (by unfold validateInputs
          rw [show LEAK_RATES "astrologers" = none by simp +decide [LEAK_RATES]]
          norm_num)⟩

lemma pctCore_eq_survivalCore (p N : ℚ) (y : ℕ) :
    pctCore p N y = survivalCore p N (y : ℚ) * 100 := by
  simp only [pctCore, survivalCore]
  split_ifs with h1 h2 <;> norm_num

lemma pctCore_nonneg (p N : ℚ) (y : ℕ) : 0 ≤ pctCore p N y := by
  rw [pctCore_eq_survivalCore, survivalCore_eq_clampExp]
  exact mul_nonneg (clampExp_nonneg _) (by norm_num)

lemma pctCore_le_100 (p N : ℚ) (y : ℕ) : pctCore p N y ≤ 100 := by
  rw [pctCore_eq_survivalCore, survivalCore_eq_clampExp]
  have h := clampExp_le_one (-p * N * (y : ℚ))
  linarith

lemma pctCore_clamp (p N : ℚ) (y : ℕ) :
    max 0 (min 100 (pctCore p N y)) = pctCore p N y := by
  rw [min_eq_right (pctCore_le_100 p N y), max_eq_right (pctCore_nonneg p N y)]

lemma seriesGo_succ (p N : ℚ) (step maxYears fuel year : ℕ) :
    seriesGo p N step maxYears (fuel + 1) year =
      if year ≤ maxYears then
        if pctCore p N year < 1/100 ∧ 10 < year then
          [⟨year, max 0 (min 100 (pctCore p N year))⟩]
        else
          CurvePoint.mk year (max 0 (min 100 (pctCore p N year))) ::
            seriesGo p N step maxYears fuel (year + step)
      else [] := rfl

lemma seriesGo_stop (p N : ℚ) (step maxYears fuel year : ℕ)
    (h : maxYears < year) : seriesGo p N step maxYears fuel year = [] := by
  cases fuel with
  | zero => rfl
  | succ n => rw [seriesGo_succ, if_neg (by omega)]

lemma seriesGo_spec (p N : ℚ) (step maxYears : ℕ) (hstep : 1 ≤ step) :
    ∀ fuel year, year ≤ maxYears → maxYears + 1 ≤ year + fuel →
      seriesGo p N step maxYears fuel year ≠ [] ∧
      (∀ pt, (seriesGo p N step maxYears fuel year).head? = some pt →
          pt.year = year) ∧
      List.Chain' (fun a b => b.year = a.year + step)
        (seriesGo p N step maxYears fuel year) ∧
      (∀ pt ∈ seriesGo p N step maxYears fuel year,
          year ≤ pt.year ∧ pt.year ≤ maxYears ∧
          pt.probability = pctCore p N pt.year) ∧
      (∀ pt, (seriesGo p N step maxYears fuel year).getLast? = some pt →
          maxYears < pt.year + step ∨
          (pctCore p N pt.year < 1/100 ∧ 10 < pt.year)) := by
  intro fuel
  induction fuel with
  | zero =>
      intro year h1 h2
      exact absurd h1 (by omega)
  | succ n ih =>
      intro year h1 h2
      rw [seriesGo_succ, if_pos h1]
      by_cases hbr : pctCore p N year < 1/100 ∧ 10 < year
      · rw [if_pos hbr]
        refine ⟨by simp, ?_, List.chain'_singleton _, ?_, ?_⟩
        · intro pt hpt
          rw [List.head?_cons] at hpt
          cases hpt
          rfl
        · intro pt hpt
          rw [List.mem_singleton] at hpt
          subst hpt
          exact ⟨le_refl year, h1, pctCore_clamp p N year⟩
        · intro pt hpt
          rw [List.getLast?_singleton] at hpt
          cases hpt
          exact Or.inr hbr
      · rw [if_neg hbr]
        by_cases hnext : year + step ≤ maxYears
        · obtain ⟨ihne, ihhead, ihchain, ihmem, ihlast⟩ :=
            ih (year + step) hnext (by omega)
          obtain ⟨q0, L0, hq0⟩ := List.exists_cons_of_ne_nil ihne
          refine ⟨List.cons_ne_nil _ _, ?_, ?_, ?_, ?_⟩
          · intro pt hpt
            rw [List.head?_cons] at hpt
            cases hpt
            rfl
          · rw [List.chain'_cons']
            refine ⟨?_, ihchain⟩
            intro q hq
            have hq2 : (seriesGo p N step maxYears n (year + step)).head? =
                some q := hq
            have := ihhead q hq2
            simp only [this]
          · intro pt hpt
            rw [List.mem_cons] at hpt
            rcases hpt with h0 | hrest
            · subst h0
              exact ⟨le_refl _, h1, pctCore_clamp p N year⟩
            · obtain ⟨ha, hb, hc2⟩ := ihmem pt hrest
              exact ⟨by omega, hb, hc2⟩
          · intro pt hpt
            rw [hq0, List.getLast?_cons_cons] at hpt
            apply ihlast
            rw [hq0]
            exact hpt
        · have hrest := seriesGo_stop p N step maxYears n (year + step)
            (by omega)
          rw [hrest]
          refine ⟨List.cons_ne_nil _ _, ?_, List.chain'_singleton _, ?_, ?_⟩
          · intro pt hpt
            rw [List.head?_cons] at hpt
            cases hpt
            rfl
          · intro pt hpt
            rw [List.mem_singleton] at hpt
            subst hpt
            exact ⟨le_refl _, h1, pctCore_clamp p N year⟩
          · intro pt hpt
            rw [List.getLast?_singleton] at hpt
            cases hpt
            left
            show maxYears < year + step
            omega

/-- Claim C6: for every valid conspirator count and category and every
maxYears, generateProbabilityOverTime returns a nonempty finite sequence of
(year, percentage) points starting at year 0 and advancing by the tiered
step (1 for maxYears up to 50, 2 up to 100, 5 up to 200, 10 beyond), each
point lying at or below maxYears with percentage equal to the section 4.2
survival value times 100 (and equal to calculateSurvivalProbability times
100 whenever the year is within the validated range), always inside
[0, 100]; the sequence may fall short of maxYears only when its last point
either leaves no room for another step or has percentage below 0.01 at a
year greater than 10. -/
theorem series_generation_contract (N : ℚ) (c : String) (p : ℚ)
    (maxYears : ℕ) (hc : LEAK_RATES c = some p) (hN1 : 1 ≤ N)
    (hN2 : N ≤ 10000000) :
    stepFor maxYears =
      (if maxYears ≤ 50 then 1 else if maxYears ≤ 100 then 2
       else if maxYears ≤ 200 then 5 else 10) ∧
    generateProbabilityOverTime N c maxYears ≠ [] ∧
    (∀ pt, (generateProbabilityOverTime N c maxYears).head? = some pt →
        pt.year = 0) ∧
    List.Chain' (fun a b => b.year = a.year + stepFor maxYears)
      (generateProbabilityOverTime N c maxYears) ∧
    (∀ pt ∈ generateProbabilityOverTime N c maxYears,
        pt.year ≤ maxYears ∧
        pt.probability = survivalCore p N (pt.year : ℚ) * 100 ∧
        0 ≤ pt.probability ∧ pt.probability ≤ 100 ∧
        ((pt.year : ℚ) ≤ 1000 →
            pt.probability =
              calculateSurvivalProbability N (pt.year : ℚ) c * 100)) ∧
    (∀ pt, (generateProbabilityOverTime N c maxYears).getLast? = some pt →
        maxYears < pt.year + stepFor maxYears ∨
        (pt.probability < 1/100 ∧ 10 < pt.year)) := by
  have hgen : generateProbabilityOverTime N c maxYears =
      seriesGo p N (stepFor maxYears) maxYears (maxYears + 1) 0 := by
    unfold generateProbabilityOverTime
    rw [validateInputs_ok hc hN1 hN2 (le_refl 0) (by norm_num), hc]
    rfl
  have hstep1 : 1 ≤ stepFor maxYears := by
    unfold stepFor
    split_ifs <;> omega
  obtain ⟨hne, hhead, hchain, hmem, hlast⟩ :=
    seriesGo_spec p N (stepFor maxYears) maxYears hstep1 (maxYears + 1) 0
      (Nat.zero_le _) (by omega)
  rw [← hgen] at hne hhead hchain hmem hlast
  refine ⟨by unfold stepFor; split_ifs <;> omega, hne, hhead, hchain, ?_, ?_⟩
  · intro pt hpt
    obtain ⟨h0, h1, h2⟩ := hmem pt hpt
    have hsurv : pt.probability = survivalCore p N (pt.year : ℚ) * 100 := by
      rw [h2, pctCore_eq_survivalCore]
    refine ⟨h1, hsurv, ?_, ?_, ?_⟩
    · rw [h2]
      exact pctCore_nonneg p N pt.year
    · rw [h2]
      exact pctCore_le_100 p N pt.year
    · intro hy
      rw [hsurv,
        calculateSurvivalProbability_valid hc hN1 hN2 (Nat.cast_nonneg _) hy]
  · intro pt hpt
    have hmempt : pt ∈ generateProbabilityOverTime N c maxYears :=
      List.mem_of_mem_getLast? hpt
    rcases hlast pt hpt with hl | hr
    · exact Or.inl hl
    · right
      obtain ⟨-, -, h2⟩ := hmem pt hmempt
      rw [h2]
      exact hr

/-- Witness for claim C6 at N = 1000, category general, maxYears = 30. -/
theorem series_generation_contract_witness :
    stepFor 30 =
      (if 30 ≤ 50 then 1 else if 30 ≤ 100 then 2
       else if 30 ≤ 200 then 5 else 10) ∧
    generateProbabilityOverTime 1000 "general" 30 ≠ [] ∧
    (∀ pt, (generateProbabilityOverTime 1000 "general" 30).head? = some pt →
        pt.year = 0) ∧
    List.Chain' (fun a b => b.year = a.year + stepFor 30)
      (generateProbabilityOverTime 1000 "general" 30) ∧
    (∀ pt ∈ generateProbabilityOverTime 1000 "general" 30,
        pt.year ≤ 30 ∧
        pt.probability = survivalCore (1/1000) 1000 (pt.year : ℚ) * 100 ∧
        0 ≤ pt.probability ∧ pt.probability ≤ 100 ∧
        ((pt.year : ℚ) ≤ 1000 →
            pt.probability =
              calculateSurvivalProbability 1000 (pt.year : ℚ) "general" *
                100)) ∧
    (∀ pt, (generateProbabilityOverTime 1000 "general" 30).getLast? =
        some pt →
        30 < pt.year + stepFor 30 ∨
        (pt.probability < 1/100 ∧ 10 < pt.year)) :=
  series_generation_contract 1000 "general" (1/1000) 30
    (by simp +decide [LEAK_RATES]) (by norm_num) (by norm_num)

/-- Entry of the memoization Map of calculator.js: key, stored value, and
insertion index (JS Map iteration order is insertion order, recorded here as
an explicit timestamp). -/
structure CacheEntry (κ : Type) (α : Type) where
  key : κ
  val : α
  time : ℕ

/-- The module-level calculationCache of calculator.js as explicit state:
the entry list in insertion order plus the next insertion index. -/
structure CacheMap (κ : Type) (α : Type) where
  entries : List (CacheEntry κ α)
  counter : ℕ

/-- Embedding of CACHE_SIZE_LIMIT (calculator.js line 19). -/
def CACHE_SIZE_LIMIT : ℕ := 1000

/-- Lookup in the cache (Map.has plus Map.get): first entry with the given
key. -/
def cacheGet {κ α : Type} [DecidableEq κ] (s : CacheMap κ α) (k : κ) :
    Option α :=
  (s.entries.find? (fun e => decide (e.key = k))).map (fun e => e.val)

/-- Embedding of getCachedOrCalculate (calculator.js lines 46-61): return
the cached value on a hit; otherwise compute, evict the first key of the Map
when the size has reached the limit, insert at the end, and return the fresh
result. -/
def getCachedOrCalculate {κ α : Type} [DecidableEq κ] (s : CacheMap κ α)
    (key : κ) (calculationFn : Unit → α) : α × CacheMap κ α :=
  match cacheGet s key with
  | some v => (v, s)
  | none =>
    let result := calculationFn ()
    let entries1 :=
      if CACHE_SIZE_LIMIT ≤ s.entries.length then
        match s.entries with
        | [] => []
        | e0 :: rest =>
            (e0 :: rest).eraseP (fun e => decide (e.key = e0.key))
      else s.entries
    (result, ⟨entries1 ++ [⟨key, result, s.counter⟩], s.counter + 1⟩)

/-- Run a sequence of cached computations against a starting cache state,
keeping only the final state. -/
def runCacheOps {κ α : Type} [DecidableEq κ]
    (ops : List (κ × (Unit → α))) (s : CacheMap κ α) : CacheMap κ α :=
  ops.foldl (fun st op => (getCachedOrCalculate st op.1 op.2).2) s

/-- The empty cache the JS module starts from. -/
def emptyCache {κ α : Type} : CacheMap κ α := ⟨[], 0⟩

/-- Structural invariant of the cache state: bounded size, entries in
strictly increasing insertion order, and all timestamps below the counter. -/
def CacheWF {κ α : Type} (s : CacheMap κ α) : Prop :=
  s.entries.length ≤ CACHE_SIZE_LIMIT ∧
  List.Pairwise (fun a b => a.time < b.time) s.entries ∧
  ∀ e ∈ s.entries, e.time < s.counter

lemma eraseP_head {κ α : Type} [DecidableEq κ] (e0 : CacheEntry κ α)
    (rest : List (CacheEntry κ α)) :
    (e0 :: rest).eraseP (fun e => decide (e.key = e0.key)) = rest := by
  rw [List.eraseP_cons_of_pos]
  simp

lemma getCachedOrCalculate_hit {κ α : Type} [DecidableEq κ]
    {s : CacheMap κ α} {k : κ} {v : α} (fn : Unit → α)
    (h : cacheGet s k = some v) :
    getCachedOrCalculate s k fn = (v, s) := by
  simp only [getCachedOrCalculate, h]

lemma getCachedOrCalculate_miss_small {κ α : Type} [DecidableEq κ]
    {s : CacheMap κ α} {k : κ} (fn : Unit → α)
    (h : cacheGet s k = none) (hlen : s.entries.length < CACHE_SIZE_LIMIT) :
    getCachedOrCalculate s k fn =
      (fn (), ⟨s.entries ++ [⟨k, fn (), s.counter⟩], s.counter + 1⟩) := by
  simp only [getCachedOrCalculate, h]
  rw [if_neg (by omega)]

lemma getCachedOrCalculate_miss_full {κ α : Type} [DecidableEq κ]
    {s : CacheMap κ α} {k : κ} (fn : Unit → α) (e0 : CacheEntry κ α)
    (rest : List (CacheEntry κ α)) (hs : s.entries = e0 :: rest)
    (h : cacheGet s k = none) (hlen : CACHE_SIZE_LIMIT ≤ s.entries.length) :
    getCachedOrCalculate s k fn =
      (fn (), ⟨rest ++ [⟨k, fn (), s.counter⟩], s.counter + 1⟩) := by
  simp only [getCachedOrCalculate, h]
  rw [if_pos hlen, hs]
  dsimp only
  rw [eraseP_head]

lemma getCachedOrCalculate_wf {κ α : Type} [DecidableEq κ]
    {s : CacheMap κ α} (h : CacheWF s) (k : κ) (fn : Unit → α) :
    CacheWF (getCachedOrCalculate s k fn).2 := by
  obtain ⟨hlen, hpw, htime⟩ := h
  cases hget : cacheGet s k with
  | some v =>
      rw [getCachedOrCalculate_hit fn hget]
      exact ⟨hlen, hpw, htime⟩
  | none =>
      by_cases hfull : CACHE_SIZE_LIMIT ≤ s.entries.length
      · cases hs : s.entries with
        | nil =>
            rw [hs] at hfull
            simp [CACHE_SIZE_LIMIT] at hfull
        | cons e0 rest =>
            rw [getCachedOrCalculate_miss_full fn e0 rest hs hget hfull]
            rw [hs] at hlen hpw htime
            refine ⟨?_, ?_, ?_⟩
            · simp only [List.length_append, List.length_cons,
                List.length_nil] at hlen ⊢
              omega
            · rw [List.pairwise_append]
              refine ⟨(List.pairwise_cons.mp hpw).2, ?_, ?_⟩
              · simp
              · intro a ha b hb
                rw [List.mem_singleton] at hb
                subst hb
                exact htime a (List.mem_cons_of_mem _ ha)
            · intro e he
              rw [List.mem_append] at he
              rcases he with h1 | h1
              · have := htime e (List.mem_cons_of_mem _ h1)
                show e.time < s.counter + 1
                omega
              · rw [List.mem_singleton] at h1
                subst h1
                show s.counter < s.counter + 1
                omega
      · rw [getCachedOrCalculate_miss_small fn hget (by omega)]
        refine ⟨?_, ?_, ?_⟩
        · simp only [List.length_append, List.length_singleton]
          omega
        · rw [List.pairwise_append]
          refine ⟨hpw, by simp, ?_⟩
          intro a ha b hb
          rw [List.mem_singleton] at hb
          subst hb
          exact htime a ha
        · intro e he
          rw [List.mem_append] at he
          rcases he with h1 | h1
          · have := htime e h1
            show e.time < s.counter + 1
            omega
          · rw [List.mem_singleton] at h1
            subst h1
            show s.counter < s.counter + 1
            omega

lemma runCacheOps_wf {κ α : Type} [DecidableEq κ]
    (ops : List (κ × (Unit → α))) (s : CacheMap κ α) (h : CacheWF s) :
    CacheWF (runCacheOps ops s) := by
  induction ops generalizing s with
  | nil => exact h
  | cons op rest ih => exact ih _ (getCachedOrCalculate_wf h op.1 op.2)

lemma emptyCache_wf {κ α : Type} : CacheWF (emptyCache (κ := κ) (α := α)) :=
  ⟨by simp [emptyCache, CACHE_SIZE_LIMIT], by simp [emptyCache],
   by simp [emptyCache]⟩

/-- Claim C7: starting from the empty cache, no sequence of cached
computations ever leaves more than CACHE_SIZE_LIMIT (1000) entries in the
cache; and whenever an insertion happens while the cache is at the limit,
the evicted entry is the head of the insertion-ordered entry list, which has
the minimal insertion timestamp (the oldest entry), and every
more-recently-inserted entry survives the insertion. -/
theorem cache_bounded_and_fifo :
    (∀ (κ α : Type) [DecidableEq κ] (ops : List (κ × (Unit → α))),
        (runCacheOps ops emptyCache).entries.length ≤ CACHE_SIZE_LIMIT) ∧
    (∀ (κ α : Type) [DecidableEq κ] (s : CacheMap κ α) (k : κ)
        (fn : Unit → α), CacheWF s → cacheGet s k = none →
        CACHE_SIZE_LIMIT ≤ s.entries.length →
        ∃ e0 rest, s.entries = e0 :: rest ∧
          (∀ e ∈ s.entries, e0.time ≤ e.time) ∧
          (getCachedOrCalculate s k fn).2.entries =
            rest ++ [⟨k, fn (), s.counter⟩] ∧
          (∀ e ∈ rest, e ∈ (getCachedOrCalculate s k fn).2.entries)) := by
  constructor
  · intro κ α inst ops
    exact (runCacheOps_wf ops emptyCache emptyCache_wf).1
  · intro κ α inst s k fn hwf hmiss hfull
    obtain ⟨hlen, hpw, htime⟩ := hwf
    cases hs : s.entries with
    | nil =>
        rw [hs] at hfull
        simp [CACHE_SIZE_LIMIT] at hfull
    | cons e0 rest =>
        refine ⟨e0, rest, rfl, ?_, ?_, ?_⟩
        · intro e he
          rw [hs] at hpw
          obtain ⟨hall, -⟩ := List.pairwise_cons.mp hpw
          rw [List.mem_cons] at he
          rcases he with h1 | h1
          · subst h1
            exact le_refl _
          · exact (hall e h1).le
        · rw [getCachedOrCalculate_miss_full fn e0 rest hs hmiss hfull]
        · intro e he
          rw [getCachedOrCalculate_miss_full fn e0 rest hs hmiss hfull]
          exact List.mem_append_left _ he

/-- Entries of the concrete full cache used to witness claim C7. -/
def fifoWitnessEntries : List (CacheEntry ℕ ℕ) :=
  (List.range 1000).map (fun i => ⟨i, i, i⟩)

/-- Concrete full cache state used to witness claim C7. -/
def fifoWitnessState : CacheMap ℕ ℕ := ⟨fifoWitnessEntries, 1000⟩

set_option maxRecDepth 4000 in
lemma fifoWitness_wf : CacheWF fifoWitnessState := by
  refine ⟨?_, ?_, ?_⟩
  · show fifoWitnessEntries.length ≤ CACHE_SIZE_LIMIT
    unfold fifoWitnessEntries
    rw [List.length_map, List.length_range]
    norm_num [CACHE_SIZE_LIMIT]
  · unfold fifoWitnessState fifoWitnessEntries
    rw [List.pairwise_map]
    exact List.pairwise_lt_range 1000
  · intro e he
    simp only [fifoWitnessState, fifoWitnessEntries, List.mem_map,
      List.mem_range] at he
    obtain ⟨i, hi, rfl⟩ := he
    show i < 1000
    omega

set_option maxRecDepth 4000 in
lemma fifoWitness_miss : cacheGet fifoWitnessState 1000 = none := by
  unfold cacheGet
  rw [Option.map_eq_none', List.find?_eq_none]
  intro x hx
  have hx2 : x ∈ fifoWitnessEntries := hx
  unfold fifoWitnessEntries at hx2
  rw [List.mem_map] at hx2
  obtain ⟨i, hi, rfl⟩ := hx2
  rw [List.mem_range] at hi
  simp only [decide_eq_true_eq]
  show ¬ i = 1000
  omega

set_option maxRecDepth 4000 in
lemma fifoWitness_full :
    CACHE_SIZE_LIMIT ≤ fifoWitnessState.entries.length := by
  show CACHE_SIZE_LIMIT ≤ fifoWitnessEntries.length
  unfold fifoWitnessEntries
  rw [List.length_map, List.length_range]
  norm_num [CACHE_SIZE_LIMIT]

/-- Witness for claim C7: the empty run keeps the bound, and inserting a
fresh key into a concrete full cache of 1000 entries evicts the
oldest-timestamped head entry while keeping every younger entry. -/
theorem cache_bounded_and_fifo_witness :
    (runCacheOps ([] : List (ℕ × (Unit → ℕ))) emptyCache).entries.length ≤
      CACHE_SIZE_LIMIT ∧
    (∃ e0 rest, fifoWitnessState.entries = e0 :: rest ∧
        (∀ e ∈ fifoWitnessState.entries, e0.time ≤ e.time) ∧
        (getCachedOrCalculate fifoWitnessState 1000 (fun _ => 7)).2.entries =
          rest ++ [⟨1000, (fun _ : Unit => 7) (), fifoWitnessState.counter⟩] ∧
        (∀ e ∈ rest, e ∈
          (getCachedOrCalculate fifoWitnessState 1000
            (fun _ => 7)).2.entries)) :=
  ⟨cache_bounded_and_fifo.1 ℕ ℕ [],
   cache_bounded_and_fifo.2 ℕ ℕ fifoWitnessState 1000 (fun _ => 7)
      fifoWitness_wf fifoWitness_miss fifoWitness_full⟩

/-- Key of the calculator cache. Embedding of createCacheKey (calculator.js
lines 39-41): the JS string key, operation-conspirators-years-category, is
an injective rendering of this quadruple for every key that the module
builds (the operation names and categories contain no separator and the two
numeric slots are recovered unambiguously), so the key is modelled as the
quadruple itself. -/
structure CacheKey where
  operation : String
  conspirators : ℚ
  years : ℚ
  professionType : String
deriving DecidableEq

/-- Embedding of createCacheKey, argument order as in the source. -/
def createCacheKey (conspirators years : ℚ)
    (professionType operation : String) : CacheKey :=
  ⟨operation, conspirators, years, professionType⟩

/-- Values stored in the calculator cache: scalar probabilities, the
expected-time result (possibly the Infinity sentinel), or a chart series. -/
inductive CachedValue where
  | num : ℝ → CachedValue
  | duration : Option ℚ → CachedValue
  | series : List CurvePoint → CachedValue

/-- Reading a cached value as a number, as the JS arithmetic in
calculateExposureProbability does with whatever the cache returns. -/
def asNum : CachedValue → ℝ
  | CachedValue.num x => x
  | _ => 0

/-- Stateful embedding of calculateSurvivalProbability: validation, then the
memoized computation against an explicit cache state. -/
noncomputable def survivalWithCache (s : CacheMap CacheKey CachedValue)
    (conspirators years : ℚ) (professionType : String) :
    CachedValue × CacheMap CacheKey CachedValue :=
  match validateInputs conspirators years professionType with
  | Except.error _ => (CachedValue.num 0, s)
  | Except.ok _ =>
      getCachedOrCalculate s
        (createCacheKey conspirators years professionType "survival")
        (fun _ => CachedValue.num
          (survivalCore ((LEAK_RATES professionType).getD 0)
            conspirators years))

/-- Stateful embedding of calculateExposureProbability: calls the cached
survival computation and clamps its complement; adds no cache entry of its
own. -/
noncomputable def exposureWithCache (s : CacheMap CacheKey CachedValue)
    (conspirators years : ℚ) (professionType : String) :
    ℝ × CacheMap CacheKey CachedValue :=
  let r := survivalWithCache s conspirators years professionType
  (max 0 (min 1 (1 - asNum r.1)), r.2)

/-- Stateful embedding of calculateExpectedTimeUntilExposure. -/
noncomputable def expectedWithCache (s : CacheMap CacheKey CachedValue)
    (conspirators : ℚ) (professionType : String) :
    CachedValue × CacheMap CacheKey CachedValue :=
  match validateInputs conspirators 0 professionType with
  | Except.error _ => (CachedValue.duration none, s)
  | Except.ok _ =>
      getCachedOrCalculate s
        (createCacheKey conspirators 0 professionType "expected")
        (fun _ => CachedValue.duration
          (expectedCore ((LEAK_RATES professionType).getD 0) conspirators))

/-- Stateful embedding of generateProbabilityOverTime. -/
noncomputable def seriesWithCache (s : CacheMap CacheKey CachedValue)
    (conspirators : ℚ) (professionType : String) (maxYears : ℕ) :
    CachedValue × CacheMap CacheKey CachedValue :=
  match validateInputs conspirators 0 professionType with
  | Except.error _ => (CachedValue.series [⟨0, 100⟩], s)
  | Except.ok _ =>
      getCachedOrCalculate s
        (createCacheKey conspirators (maxYears : ℚ) professionType "series")
        (fun _ => CachedValue.series
          (seriesGo ((LEAK_RATES professionType).getD 0) conspirators
            (stepFor maxYears) maxYears (maxYears + 1) 0))

/-- One call into the estimator, with arbitrary (possibly invalid)
arguments. -/
inductive EstimatorCall where
  | survival (conspirators years : ℚ) (professionType : String)
  | exposure (conspirators years : ℚ) (professionType : String)
  | expected (conspirators : ℚ) (professionType : String)
  | series (conspirators : ℚ) (professionType : String) (maxYears : ℕ)

/-- State effect of one estimator call on the shared cache. -/
noncomputable def applyCall (s : CacheMap CacheKey CachedValue) :
    EstimatorCall → CacheMap CacheKey CachedValue
  | EstimatorCall.survival N t c => (survivalWithCache s N t c).2
  | EstimatorCall.exposure N t c => (exposureWithCache s N t c).2
  | EstimatorCall.expected N c => (expectedWithCache s N c).2
  | EstimatorCall.series N c my => (seriesWithCache s N c my).2

/-- Cache state after an arbitrary sequence of estimator calls. -/
noncomputable def runCalls (calls : List EstimatorCall)
    (s : CacheMap CacheKey CachedValue) : CacheMap CacheKey CachedValue :=
  calls.foldl applyCall s

/-- Semantic coherence of one cache entry: whatever operation built its key,
the stored value is the value a fresh computation for that key produces. -/
def EntryCoherent (e : CacheEntry CacheKey CachedValue) : Prop :=
  (e.key.operation = "survival" →
    e.val = CachedValue.num
      (survivalCore ((LEAK_RATES e.key.professionType).getD 0)
        e.key.conspirators e.key.years)) ∧
  (e.key.operation = "expected" →
    e.val = CachedValue.duration
      (expectedCore ((LEAK_RATES e.key.professionType).getD 0)
        e.key.conspirators)) ∧
  (e.key.operation = "series" →
    ∃ my : ℕ, e.key.years = (my : ℚ) ∧
      e.val = CachedValue.series
        (seriesGo ((LEAK_RATES e.key.professionType).getD 0)
          e.key.conspirators (stepFor my) my (my + 1) 0))

/-- Semantic coherence of the whole cache state. -/
def Coherent (s : CacheMap CacheKey CachedValue) : Prop :=
  ∀ e ∈ s.entries, EntryCoherent e

lemma getCached_preserves_coherent {s : CacheMap CacheKey CachedValue}
    {k : CacheKey} {fn : Unit → CachedValue} (hs : Coherent s)
    (hnew : ∀ time : ℕ, EntryCoherent ⟨k, fn (), time⟩) :
    Coherent (getCachedOrCalculate s k fn).2 := by
  cases hget : cacheGet s k with
  | some v =>
      rw [getCachedOrCalculate_hit fn hget]
      exact hs
  | none =>
      by_cases hfull : CACHE_SIZE_LIMIT ≤ s.entries.length
      · cases hslist : s.entries with
        | nil =>
            rw [hslist] at hfull
            simp [CACHE_SIZE_LIMIT] at hfull
        | cons e0 rest =>
            rw [getCachedOrCalculate_miss_full fn e0 rest hslist hget hfull]
            intro e he
            rw [List.mem_append] at he
            rcases he with h1 | h1
            · exact hs e (by rw [hslist]; exact List.mem_cons_of_mem _ h1)
            · rw [List.mem_singleton] at h1
              subst h1
              exact hnew _
      · rw [getCachedOrCalculate_miss_small fn hget (by omega)]
        intro e he
        rw [List.mem_append] at he
        rcases he with h1 | h1
        · exact hs e h1
        · rw [List.mem_singleton] at h1
          subst h1
          exact hnew _

lemma getCached_result_coherent {s : CacheMap CacheKey CachedValue}
    {k : CacheKey} {fn : Unit → CachedValue} (hs : Coherent s)
    (hk : ∀ e : CacheEntry CacheKey CachedValue,
        e.key = k → EntryCoherent e → e.val = fn ()) :
    (getCachedOrCalculate s k fn).1 = fn () := by
  cases hget : cacheGet s k with
  | some v =>
      rw [getCachedOrCalculate_hit fn hget]
      unfold cacheGet at hget
      rw [Option.map_eq_some'] at hget
      obtain ⟨e, hfind, hval⟩ := hget
      have hkey : e.key = k := by
        have := List.find?_some hfind
        simpa using this
      have hmem : e ∈ s.entries := List.mem_of_find?_eq_some hfind
      show v = fn ()
      rw [← hval]
      exact hk e hkey (hs e hmem)
  | none =>
      by_cases hfull : CACHE_SIZE_LIMIT ≤ s.entries.length
      · cases hslist : s.entries with
        | nil =>
            rw [hslist] at hfull
            simp [CACHE_SIZE_LIMIT] at hfull
        | cons e0 rest =>
            rw [getCachedOrCalculate_miss_full fn e0 rest hslist hget hfull]
      · rw [getCachedOrCalculate_miss_small fn hget (by omega)]

lemma survivalEntry_coherent (N t : ℚ) (c : String) (time : ℕ) :
    EntryCoherent ⟨createCacheKey N t c "survival",
      CachedValue.num (survivalCore ((LEAK_RATES c).getD 0) N t), time⟩ := by
  refine ⟨fun h => rfl, fun h => by simp [createCacheKey] at h, fun h => by
    simp [createCacheKey] at h⟩

lemma expectedEntry_coherent (N : ℚ) (c : String) (time : ℕ) :
    EntryCoherent ⟨createCacheKey N 0 c "expected",
      CachedValue.duration (expectedCore ((LEAK_RATES c).getD 0) N),
      time⟩ := by
  refine ⟨fun h => by simp [createCacheKey] at h, fun h => rfl, fun h => by
    simp [createCacheKey] at h⟩

lemma seriesEntry_coherent (N : ℚ) (c : String) (my : ℕ) (time : ℕ) :
    EntryCoherent ⟨createCacheKey N (my : ℚ) c "series",
      CachedValue.series (seriesGo ((LEAK_RATES c).getD 0) N
        (stepFor my) my (my + 1) 0), time⟩ := by
  refine ⟨fun h => by simp [createCacheKey] at h, fun h => by
    simp [createCacheKey] at h, fun h => ⟨my, rfl, rfl⟩⟩

lemma coherent_survival_val {e : CacheEntry CacheKey CachedValue}
    {N t : ℚ} {c : String} (hkey : e.key = createCacheKey N t c "survival")
    (hcoh : EntryCoherent e) :
    e.val = CachedValue.num (survivalCore ((LEAK_RATES c).getD 0) N t) := by
  have hop : e.key.operation = "survival" := by rw [hkey]; rfl
  rw [hcoh.1 hop, hkey]
  rfl

lemma coherent_expected_val {e : CacheEntry CacheKey CachedValue}
    {N : ℚ} {c : String} (hkey : e.key = createCacheKey N 0 c "expected")
    (hcoh : EntryCoherent e) :
    e.val = CachedValue.duration
      (expectedCore ((LEAK_RATES c).getD 0) N) := by
  have hop : e.key.operation = "expected" := by rw [hkey]; rfl
  rw [hcoh.2.1 hop, hkey]
  rfl

lemma coherent_series_val {e : CacheEntry CacheKey CachedValue}
    {N : ℚ} {c : String} {my : ℕ}
    (hkey : e.key = createCacheKey N (my : ℚ) c "series")
    (hcoh : EntryCoherent e) :
    e.val = CachedValue.series (seriesGo ((LEAK_RATES c).getD 0) N
      (stepFor my) my (my + 1) 0) := by
  have hop : e.key.operation = "series" := by rw [hkey]; rfl
  obtain ⟨my2, hyears, hval⟩ := hcoh.2.2 hop
  have hyy : e.key.years = (my : ℚ) := by rw [hkey]; rfl
  have hcast : (my2 : ℚ) = (my : ℚ) := by rw [← hyears, hyy]
  have hmy : my2 = my := Nat.cast_injective hcast
  subst hmy
  rw [hval, hkey]
  rfl

lemma survivalWithCache_coherent {s : CacheMap CacheKey CachedValue}
    (hs : Coherent s) (N t : ℚ) (c : String) :
    Coherent (survivalWithCache s N t c).2 := by
  unfold survivalWithCache
  cases hv : validateInputs N t c with
  | error e =>
      exact hs
  | ok u =>
      exact getCached_preserves_coherent hs
        (fun time => survivalEntry_coherent N t c time)

lemma exposureWithCache_coherent {s : CacheMap CacheKey CachedValue}
    (hs : Coherent s) (N t : ℚ) (c : String) :
    Coherent (exposureWithCache s N t c).2 :=
  survivalWithCache_coherent hs N t c

lemma expectedWithCache_coherent {s : CacheMap CacheKey CachedValue}
    (hs : Coherent s) (N : ℚ) (c : String) :
    Coherent (expectedWithCache s N c).2 := by
  unfold expectedWithCache
  cases hv : validateInputs N 0 c with
  | error e =>
      exact hs
  | ok u =>
      exact getCached_preserves_coherent hs
        (fun time => expectedEntry_coherent N c time)

lemma seriesWithCache_coherent {s : CacheMap CacheKey CachedValue}
    (hs : Coherent s) (N : ℚ) (c : String) (my : ℕ) :
    Coherent (seriesWithCache s N c my).2 := by
  unfold seriesWithCache
  cases hv : validateInputs N 0 c with
  | error e =>
      exact hs
  | ok u =>
      exact getCached_preserves_coherent hs
        (fun time => seriesEntry_coherent N c my time)

lemma applyCall_coherent {s : CacheMap CacheKey CachedValue}
    (hs : Coherent s) (call : EstimatorCall) :
    Coherent (applyCall s call) := by
  cases call with
  | survival N t c => exact survivalWithCache_coherent hs N t c
  | exposure N t c => exact exposureWithCache_coherent hs N t c
  | expected N c => exact expectedWithCache_coherent hs N c
  | series N c my => exact seriesWithCache_coherent hs N c my

lemma emptyCache_coherent : Coherent emptyCache := by
  intro e he
  simp [emptyCache] at he

lemma runCalls_coherent (calls : List EstimatorCall) :
    Coherent (runCalls calls emptyCache) := by
  have general : ∀ (cs : List EstimatorCall)
      (s : CacheMap CacheKey CachedValue), Coherent s →
      Coherent (runCalls cs s) := by
    intro cs
    induction cs with
    | nil => intro s hs; exact hs
    | cons c0 rest ih => intro s hs; exact ih _ (applyCall_coherent hs c0)
  exact general calls emptyCache emptyCache_coherent

lemma survivalWithCache_val {s : CacheMap CacheKey CachedValue}
    (hs : Coherent s) (N t : ℚ) (c : String) :
    (survivalWithCache s N t c).1 =
      CachedValue.num (calculateSurvivalProbability N t c) := by
  unfold survivalWithCache calculateSurvivalProbability
  cases hv : validateInputs N t c with
  | error e =>
      rfl
  | ok u =>
      exact getCached_result_coherent hs
        (fun e hkey hcoh => coherent_survival_val hkey hcoh)

lemma exposureWithCache_val {s : CacheMap CacheKey CachedValue}
    (hs : Coherent s) (N t : ℚ) (c : String) :
    (exposureWithCache s N t c).1 =
      calculateExposureProbability N t c := by
  unfold exposureWithCache calculateExposureProbability
  dsimp only
  rw [survivalWithCache_val hs N t c]
  rfl

lemma expectedWithCache_val {s : CacheMap CacheKey CachedValue}
    (hs : Coherent s) (N : ℚ) (c : String) :
    (expectedWithCache s N c).1 =
      CachedValue.duration (calculateExpectedTimeUntilExposure N c) := by
  unfold expectedWithCache calculateExpectedTimeUntilExposure
  cases hv : validateInputs N 0 c with
  | error e =>
      rfl
  | ok u =>
      exact getCached_result_coherent hs
        (fun e hkey hcoh => coherent_expected_val hkey hcoh)

lemma seriesWithCache_val {s : CacheMap CacheKey CachedValue}
    (hs : Coherent s) (N : ℚ) (c : String) (my : ℕ) :
    (seriesWithCache s N c my).1 =
      CachedValue.series (generateProbabilityOverTime N c my) := by
  unfold seriesWithCache generateProbabilityOverTime
  cases hv : validateInputs N 0 c with
  | error e =>
      rfl
  | ok u =>
      exact getCached_result_coherent hs
        (fun e hkey hcoh => coherent_series_val hkey hcoh)

/-- Claim C8: the cache is observationally transparent. After an arbitrary
sequence of prior estimator calls (with arbitrary arguments, so after any
reachable pattern of hits, insertions and evictions), each estimator
operation returns exactly the value the cache-free computation produces for
its arguments. -/
theorem cache_transparent (calls : List EstimatorCall) (N t : ℚ)
    (c : String) (maxYears : ℕ) :
    (survivalWithCache (runCalls calls emptyCache) N t c).1 =
      CachedValue.num (calculateSurvivalProbability N t c) ∧
    (exposureWithCache (runCalls calls emptyCache) N t c).1 =
      calculateExposureProbability N t c ∧
    (expectedWithCache (runCalls calls emptyCache) N c).1 =
      CachedValue.duration (calculateExpectedTimeUntilExposure N c) ∧
    (seriesWithCache (runCalls calls emptyCache) N c maxYears).1 =
      CachedValue.series (generateProbabilityOverTime N c maxYears) := by
  have hs := runCalls_coherent calls
  exact ⟨survivalWithCache_val hs N t c, exposureWithCache_val hs N t c,
    expectedWithCache_val hs N c, seriesWithCache_val hs N c maxYears⟩
